import Mathlib

/-!
Verification of the boxing match engine and move classifier
(`backend/game_logic.py`, `backend/pose_detection.py`,
`pose-detection/pose_detector.py`).

Python floats are modelled as exact rationals, Python ints as `ℤ`.
`int(x)` (truncation toward zero) is `pyInt`.  The `players` dict is an
association list in insertion order with Python-dict update semantics
(`dictSet` replaces the value in place, `dictDel` removes the entry).
The event-loop clock is an explicit `now : ℚ` argument.
-/

namespace BoxingGame

/-- `GameState` enum from `game_logic.py`. -/
inductive GameState where
  | waiting
  | playing
  | paused
  | finished
deriving DecidableEq, Repr

/-- `MoveType` enum from `game_logic.py`; the payload of each
constructor in Python is the lowercase string value. -/
inductive MoveType where
  | jab
  | cross
  | hook
  | uppercut
  | block
  | dodge
  | guard
deriving DecidableEq, Repr

/-- The string value of each `MoveType` member. -/
def MoveType.value : MoveType → String
  | .jab => "jab"
  | .cross => "cross"
  | .hook => "hook"
  | .uppercut => "uppercut"
  | .block => "block"
  | .dodge => "dodge"
  | .guard => "guard"

/-- `MoveType(s)` value lookup: Python enum lookup by value is an exact,
case-sensitive string comparison; an unmatched string raises `ValueError`
(modelled as `none`). -/
def parseMoveType (s : String) : Option MoveType :=
  if s = "jab" then some .jab
  else if s = "cross" then some .cross
  else if s = "hook" then some .hook
  else if s = "uppercut" then some .uppercut
  else if s = "block" then some .block
  else if s = "dodge" then some .dodge
  else if s = "guard" then some .guard
  else none

/-- `Player` dataclass from `game_logic.py`. -/
structure Player where
  id : String
  name : String
  health : ℤ
  score : ℤ
  last_move : Option String
  last_move_time : Option ℚ
  is_blocking : Bool
  is_dodging : Bool
deriving DecidableEq, Repr

/-- `GameAction` dataclass from `game_logic.py`. -/
structure GameAction where
  player_id : String
  move_type : String
  confidence : ℚ
  timestamp : ℚ
deriving DecidableEq, Repr

/-- An element of the list handed to `process_actions`: a JSON-style
dict whose keys may each be absent. -/
structure ActionData where
  player_id : Option String
  move : Option String
  confidence : Option ℚ
  timestamp : Option ℚ
deriving DecidableEq, Repr

/-- Exceptions escaping the engine. -/
inductive PyError where
  | valueError (moveString : String)
  | insufficientPlayers
deriving DecidableEq, Repr

/-- The mutable state of the `BoxingGame` class. -/
structure Game where
  state : GameState
  players : List (String × Player)
  round_time : ℚ
  current_round : ℤ
  max_rounds : ℤ
  game_start_time : Option ℚ
  last_update_time : Option ℚ
deriving DecidableEq, Repr

/-- Python dict lookup (first occurrence of a key). -/
def dictGet : List (String × Player) → String → Option Player
  | [], _ => none
  | kv :: rest, k => if kv.1 = k then some kv.2 else dictGet rest k

/-- Python dict assignment: replace the value at an existing key in
place, otherwise append at the end. -/
def dictSet : List (String × Player) → String → Player → List (String × Player)
  | [], k, v => [(k, v)]
  | kv :: rest, k, v => if kv.1 = k then (k, v) :: rest else kv :: dictSet rest k v

/-- Python `del d[k]`: remove the entry holding the key. -/
def dictDel : List (String × Player) → String → List (String × Player)
  | [], _ => []
  | kv :: rest, k => if kv.1 = k then rest else kv :: dictDel rest k

/-- `BoxingGame.__init__`. -/
def initGame : Game where
  state := .waiting
  players := []
  round_time := 180
  current_round := 1
  max_rounds := 3
  game_start_time := none
  last_update_time := none

/-- `self.move_damage` table. -/
def move_damage : MoveType → ℤ
  | .jab => 10
  | .cross => 15
  | .hook => 20
  | .uppercut => 25
  | .block => 0
  | .dodge => 0
  | .guard => 0

/-- `self.move_effectiveness` table (damage fraction through a block). -/
def move_effectiveness : MoveType → ℚ
  | .jab => 3/10
  | .cross => 1/2
  | .hook => 7/10
  | .uppercut => 4/5
  | .block => 0
  | .dodge => 0
  | .guard => 0

/-- Python `int(x)` on a float: truncation toward zero. -/
def pyInt (q : ℚ) : ℤ := if 0 ≤ q then ⌊q⌋ else -⌊-q⌋

/-- A freshly constructed `Player(id=player_id, name=name)` with the
dataclass defaults. -/
def freshPlayer (pid nm : String) : Player where
  id := pid
  name := nm
  health := 100
  score := 0
  last_move := none
  last_move_time := none
  is_blocking := false
  is_dodging := false

/-- The per-player reset performed by `start_game`. -/
def resetForStart (p : Player) : Player :=
  {p with health := 100, score := 0, last_move := none,
          is_blocking := false, is_dodging := false}

/-- The per-player reset performed at a round boundary (score and last
move are kept). -/
def resetForRound (p : Player) : Player :=
  {p with health := 100, is_blocking := false, is_dodging := false}

/-- `add_player`: store (replacing any previous holder of the id) and
return a fresh player. -/
def add_player (g : Game) (pid nm : String) : Game × Player :=
  let p := freshPlayer pid nm
  ({g with players := dictSet g.players pid p}, p)

/-- `remove_player`. -/
def remove_player (g : Game) (pid : String) : Game × Bool :=
  if (dictGet g.players pid).isSome then
    ({g with players := dictDel g.players pid}, true)
  else (g, false)

/-- `start_game`: refuse with `ValueError` below one player, otherwise
enter PLAYING, record the start time, reset round and players. -/
def start_game (g : Game) (now : ℚ) : Game × Option PyError :=
  if g.players.length < 1 then (g, some .insufficientPlayers)
  else
    ({g with
        state := .playing
        game_start_time := some now
        current_round := 1
        players := g.players.map fun kv => (kv.1, resetForStart kv.2)},
     none)

/-- `pause_game` (unconditional). -/
def pause_game (g : Game) : Game := {g with state := .paused}

/-- `resume_game` (only from PAUSED). -/
def resume_game (g : Game) : Game :=
  if g.state = .paused then {g with state := .playing} else g

/-- `end_game` (unconditional). -/
def end_game (g : Game) : Game := {g with state := .finished}

/-- `_get_opponent` on the players list: `None` in single-player mode,
else the first entry whose key differs from the actor's id. -/
def get_opp_list (ps : List (String × Player)) (pid : String) : Option (String × Player) :=
  if ps.length == 1 then none
  else ps.find? fun kv => decide (kv.1 ≠ pid)

/-- `_get_opponent`. -/
def get_opponent (g : Game) (pid : String) : Option (String × Player) :=
  get_opp_list g.players pid

/-- `_calculate_damage`: confidence multiplier, block effectiveness,
dodge override, clamp at zero. -/
def calculate_damage (mt : MoveType) (confidence : ℚ) (opponent : Player) : ℤ :=
  let damage := pyInt ((move_damage mt : ℚ) * confidence)
  let damage := if opponent.is_blocking
    then pyInt ((damage : ℚ) * move_effectiveness mt) else damage
  let damage := if opponent.is_dodging then 0 else damage
  max 0 damage

/-- `_apply_damage`. -/
def apply_damage (p : Player) (damage : ℤ) : Player :=
  {p with health := max 0 (p.health - damage)}

/-- The offensive tail of `_process_single_action`: find the opponent,
deal damage, award the damage as score when positive.  `actor` is the
actor's record after the last-move bookkeeping. -/
def resolve_offense (g : Game) (a : GameAction) (actor : Player) (mt : MoveType) : Game :=
  match get_opponent g a.player_id with
  | none => g
  | some (oid, opp) =>
    let damage := calculate_damage mt a.confidence opp
    let g := {g with players := dictSet g.players oid (apply_damage opp damage)}
    if 0 < damage then
      {g with players :=
        dictSet g.players a.player_id {actor with score := actor.score + damage}}
    else g

/-- `_process_single_action` after the actor and move kind resolved:
record the last move, then the defensive-posture branch or the
offensive branch. -/
def process_known_move (g : Game) (a : GameAction) (player : Player) (mt : MoveType) : Game :=
  let player := {player with last_move := some a.move_type, last_move_time := some a.timestamp}
  let g := {g with players := dictSet g.players a.player_id player}
  if mt = .block then
    {g with players :=
      dictSet g.players a.player_id {player with is_blocking := true, is_dodging := false}}
  else if mt = .dodge then
    {g with players :=
      dictSet g.players a.player_id {player with is_dodging := true, is_blocking := false}}
  else if mt = .guard then
    {g with players :=
      dictSet g.players a.player_id {player with is_blocking := false, is_dodging := false}}
  else resolve_offense g a player mt

/-- `_process_single_action`: unknown actors are dropped with a logged
warning; an unrecognized move string raises `ValueError` before any
mutation of this action. -/
def process_single_action (g : Game) (a : GameAction) : Game × Option PyError :=
  match dictGet g.players a.player_id with
  | none => (g, none)
  | some player =>
    match parseMoveType a.move_type with
    | none => (g, some (.valueError a.move_type))
    | some mt => (process_known_move g a player mt, none)

/-- The action loop of `process_actions`: items missing `move` or
`confidence` are skipped; `player_id` defaults to `"player1"` and
`timestamp` to the current time; an exception aborts the loop and
propagates, keeping the mutations made so far. -/
def apply_actions (g : Game) (now : ℚ) : List ActionData → Game × Option PyError
  | [] => (g, none)
  | a :: rest =>
    match a.move, a.confidence with
    | some mv, some conf =>
      let ga : GameAction :=
        ⟨a.player_id.getD "player1", mv, conf, a.timestamp.getD now⟩
      match process_single_action g ga with
      | (g', none) => apply_actions g' now rest
      | (g', some e) => (g', some e)
    | _, _ => apply_actions g now rest

/-- Descending `(health, score)` order used by `_handle_round_end`
(`sort(key=lambda p: (p.health, p.score), reverse=True)`). -/
def lexGe (a b : Player) : Prop :=
  b.health < a.health ∨ (a.health = b.health ∧ b.score ≤ a.score)

instance : DecidableRel lexGe := fun a b => by
  unfold lexGe
  infer_instance

/-- The stable descending sort of the player values. -/
def sortPlayersDesc (l : List Player) : List Player := List.insertionSort lexGe l

/-- `_handle_knockout`: the first other participant (in iteration
order) gains 50 score and the match finishes. -/
def handle_knockout (g : Game) (ko : Player) : Game :=
  let g :=
    match (g.players.map Prod.snd).find? (fun p => decide (p.id ≠ ko.id)) with
    | some w =>
      {g with players := dictSet g.players w.id {w with score := w.score + 50}}
    | none => g
  {g with state := .finished}

/-- `_handle_round_end`: with at least two players the head of the
stable descending sort gains 25 score; the round counter advances and
either the match finishes or every player is reset for the next round
and the start time is re-stamped. -/
def handle_round_end (g : Game) (now : ℚ) : Game :=
  let g :=
    if 2 ≤ g.players.length then
      match (sortPlayersDesc (g.players.map Prod.snd)).head? with
      | some w =>
        {g with players := dictSet g.players w.id {w with score := w.score + 25}}
      | none => g
    else g
  let r := g.current_round + 1
  if g.max_rounds < r then
    {g with current_round := r, state := .finished}
  else
    {g with current_round := r, game_start_time := some now,
            players := g.players.map fun kv => (kv.1, resetForRound kv.2)}

/-- `_check_game_conditions`: the knockout scan runs first and
short-circuits the round-timer check.  The round-timer guard
`if self.game_start_time:` is a Python truthiness test, so it is taken
only when the start timestamp is present AND nonzero (`None` and `0.0`
are both falsy). -/
def check_game_conditions (g : Game) (now : ℚ) : Game :=
  match g.players.find? (fun kv => decide (kv.2.health ≤ 0)) with
  | some kv => handle_knockout g kv.2
  | none =>
    match g.game_start_time with
    | some t0 =>
      if t0 = 0 then g
      else if g.round_time ≤ now - t0 then handle_round_end g now else g
    | none => g

/-- `process_actions`: a no-op outside PLAYING; otherwise stamp the
update time, run the action loop, and (when no exception escaped) run
the end-of-tick checks. -/
def process_actions (g : Game) (now : ℚ) (acts : List ActionData) : Game × Option PyError :=
  if g.state = GameState.playing then
    let g0 := {g with last_update_time := some now}
    match apply_actions g0 now acts with
    | (g1, none) => (check_game_conditions g1 now, none)
    | (g1, some e) => (g1, some e)
  else (g, none)

/-- One public operation on the engine. -/
inductive Op where
  | register (pid nm : String)
  | deregister (pid : String)
  | start (now : ℚ)
  | pause
  | resume
  | finish
  | processBatch (now : ℚ) (acts : List ActionData)
deriving DecidableEq, Repr

/-- Run one operation, keeping whatever state the object holds after
the call (also when the call raised). -/
def runOp (g : Game) : Op → Game
  | .register pid nm => (add_player g pid nm).1
  | .deregister pid => (remove_player g pid).1
  | .start now => (start_game g now).1
  | .pause => pause_game g
  | .resume => resume_game g
  | .finish => end_game g
  | .processBatch now acts => (process_actions g now acts).1

/-- Run a sequence of operations from the freshly constructed game. -/
def runOps (ops : List Op) : Game := ops.foldl runOp initGame

/-- Reference damage, written from the specified pipeline: floor of
base damage times confidence; against a blocking posture multiply by
the block-effectiveness factor and floor again; a dodging posture
zeroes the damage unconditionally; clamp at zero. -/
def refDamage (mt : MoveType) (c : ℚ) (blocking dodging : Bool) : ℤ :=
  let base : ℤ :=
    match mt with
    | .jab => 10 | .cross => 15 | .hook => 20 | .uppercut => 25
    | _ => 0
  let eff : ℚ :=
    match mt with
    | .jab => 3/10 | .cross => 1/2 | .hook => 7/10 | .uppercut => 4/5
    | _ => 0
  let d0 : ℤ := ⌊(base : ℚ) * c⌋
  let d1 : ℤ := if blocking then ⌊(d0 : ℚ) * eff⌋ else d0
  let d2 : ℤ := if dodging then 0 else d1
  max 0 d2

/-- The first player in list order whose `(health, score)` pair is
lexicographically maximal (earlier players win ties). -/
def firstMax : List Player → Option Player
  | [] => none
  | a :: as =>
    match firstMax as with
    | none => some a
    | some m => if lexGe a m then some a else some m

/-- Round-end transition written from the specified behaviour: with at
least two participants the first participant holding the
lexicographically maximal `(health desc, score desc)` pair gains a flat
25 score (ties in health broken by score, remaining ties by list
order); the round counter advances; past the last round the match
finishes, otherwise health and posture reset for the next round and the
match-start timestamp is re-stamped. -/
def roundEndSpec (g : Game) (now : ℚ) : Game :=
  let g :=
    if 2 ≤ g.players.length then
      match firstMax (g.players.map Prod.snd) with
      | some w =>
        {g with players := dictSet g.players w.id {w with score := w.score + 25}}
      | none => g
    else g
  let r := g.current_round + 1
  if g.max_rounds < r then
    {g with current_round := r, state := .finished}
  else
    {g with current_round := r, game_start_time := some now,
            players := g.players.map fun kv => (kv.1, resetForRound kv.2)}

/-- Every stored participant has health between 0 and 100. -/
def HealthOK (ps : List (String × Player)) : Prop :=
  ∀ kv ∈ ps, 0 ≤ (kv : String × Player).2.health ∧ kv.2.health ≤ 100

/-- Every stored participant has health between 0 and 100. -/
def HealthInv (g : Game) : Prop := HealthOK g.players

/-- Between the two participant maps, no stored participant's score
decreases and no participant disappears. -/
def ScoreStep (ps qs : List (String × Player)) : Prop :=
  ∀ k p, dictGet ps k = some p → ∃ q, dictGet qs k = some q ∧ p.score ≤ q.score

/-- Structural facts every real Python `dict`-backed map satisfies:
each stored player's `id` field equals its key, and keys are unique. -/
def WfList (ps : List (String × Player)) : Prop :=
  (∀ kv ∈ ps, (kv : String × Player).2.id = kv.1) ∧ (ps.map Prod.fst).Nodup

/-- Structural facts every real Python `dict`-backed state satisfies. -/
def WfPlayers (g : Game) : Prop := WfList g.players

instance (ps : List (String × Player)) : Decidable (WfList ps) := by
  unfold WfList
  infer_instance

instance (g : Game) : Decidable (WfPlayers g) := by
  unfold WfPlayers
  infer_instance

/-- The operations quantified over by the score-monotonicity statement:
everything except `start` (an explicit reset) and re-registering an id
that is already present. -/
def OpAllowed (g : Game) : Op → Prop
  | .start _ => False
  | .register pid _ => dictGet g.players pid = none
  | _ => True

end BoxingGame

namespace BoxingClassifier

/-- One landmark slot of the 33-slot pose array: x, y and detection
confidence (the confidence column is never read by the detectors). -/
structure Landmark where
  x : ℚ
  y : ℚ
  conf : ℚ
deriving DecidableEq, Repr

/-- The 33-slot pose array both classifiers build. -/
def PoseArr : Type := Fin 33 → Landmark

/-- Squared planar distance between two landmarks; `np.linalg.norm` is
`sqrtFn` applied to it.  Both implementations call `numpy` identically,
so the classifiers are stated over an arbitrary square-root evaluator
`sqrtFn : ℚ → ℚ` and every theorem below holds for all of them. -/
def sqDist (a b : Landmark) : ℚ := (a.x - b.x) ^ 2 + (a.y - b.y) ^ 2

/-- `_calculate_arm_extension` (textually identical in
`backend/pose_detection.py` and `pose-detection/pose_detector.py`). -/
def calculate_arm_extension (sqrtFn : ℚ → ℚ) (wrist elbow shoulder : Landmark) : ℚ :=
  let wrist_elbow_dist := sqrtFn (sqDist wrist elbow)
  let elbow_shoulder_dist := sqrtFn (sqDist elbow shoulder)
  let total_arm_length := wrist_elbow_dist + elbow_shoulder_dist
  let straight_dist := sqrtFn (sqDist wrist shoulder)
  if 0 < total_arm_length then min (straight_dist / total_arm_length) 1 else 0

/-- `_detect_jab` (identical in both files). -/
def detect_jab (sqrtFn : ℚ → ℚ) (pd : PoseArr) : ℚ :=
  let left_wrist := pd 15
  let left_elbow := pd 13
  let left_shoulder := pd 11
  let arm_extension := calculate_arm_extension sqrtFn left_wrist left_elbow left_shoulder
  if 4/5 < arm_extension ∧ left_shoulder.x < left_wrist.x then min arm_extension 1 else 0

/-- `_detect_cross` (identical in both files). -/
def detect_cross (sqrtFn : ℚ → ℚ) (pd : PoseArr) : ℚ :=
  let right_wrist := pd 16
  let right_elbow := pd 14
  let right_shoulder := pd 12
  let arm_extension := calculate_arm_extension sqrtFn right_wrist right_elbow right_shoulder
  if 4/5 < arm_extension ∧ right_shoulder.x < right_wrist.x then min arm_extension 1 else 0

/-- `_detect_hook` (identical in both files). -/
def detect_hook (pd : PoseArr) : ℚ :=
  let left_wrist := pd 15
  let right_wrist := pd 16
  let left_shoulder := pd 11
  let right_shoulder := pd 12
  let left_hook := left_shoulder.y < left_wrist.y ∧ 3/10 < |left_wrist.x - left_shoulder.x|
  let right_hook := right_shoulder.y < right_wrist.y ∧ 3/10 < |right_wrist.x - right_shoulder.x|
  if left_hook ∨ right_hook then 4/5 else 0

/-- `_detect_uppercut` (identical in both files). -/
def detect_uppercut (pd : PoseArr) : ℚ :=
  let left_wrist := pd 15
  let right_wrist := pd 16
  let left_shoulder := pd 11
  let right_shoulder := pd 12
  let left_uppercut := left_wrist.y < left_shoulder.y ∧ left_shoulder.x - 1/5 < left_wrist.x
  let right_uppercut := right_wrist.y < right_shoulder.y ∧ right_shoulder.x - 1/5 < right_wrist.x
  if left_uppercut ∨ right_uppercut then 4/5 else 0

/-- `_detect_block` (identical in both files). -/
def detect_block (pd : PoseArr) : ℚ :=
  let left_wrist := pd 15
  let right_wrist := pd 16
  let left_shoulder := pd 11
  let right_shoulder := pd 12
  let left_block := left_wrist.y < left_shoulder.y ∧ |left_wrist.x - left_shoulder.x| < 3/10
  let right_block := right_wrist.y < right_shoulder.y ∧ |right_wrist.x - right_shoulder.x| < 3/10
  if left_block ∧ right_block then 9/10
  else if left_block ∨ right_block then 3/5
  else 0

/-- `_detect_dodge` (identical in both files). -/
def detect_dodge (pd : PoseArr) : ℚ :=
  let left_hip := pd 23
  let right_hip := pd 24
  let left_shoulder := pd 11
  let right_shoulder := pd 12
  let shoulder_movement := |left_shoulder.x - right_shoulder.x|
  let hip_movement := |left_hip.x - right_hip.x|
  if 2/5 < shoulder_movement ∨ 2/5 < hip_movement then 7/10 else 0

/-- `_detect_guard` (identical in both files). -/
def detect_guard (pd : PoseArr) : ℚ :=
  let left_wrist := pd 15
  let right_wrist := pd 16
  let left_elbow := pd 13
  let right_elbow := pd 14
  let left_guard := left_elbow.y < left_wrist.y ∧ left_wrist.y - 3/10 < left_elbow.y
  let right_guard := right_elbow.y < right_wrist.y ∧ right_wrist.y - 3/10 < right_elbow.y
  if left_guard ∧ right_guard then 4/5 else 0

/-- One iteration of the `for move_name, detect_func in
self.boxing_moves.items()` loop: keep the move when its confidence
exceeds the threshold, tagged with the evaluation timestamp. -/
def keepMove (name : String) (c threshold now : ℚ) : List (String × ℚ × ℚ) :=
  if threshold < c then [(name, c, now)] else []

/-- `PoseDetector.process_pose` from `backend/pose_detection.py`
(detector loop only; the readiness guard and exception handler return
`[]` and are outside the pure pipeline): every detector is filtered by
the flat 0.5 confidence threshold, in dict insertion order. -/
def backend_process_pose (sqrtFn : ℚ → ℚ) (pd : PoseArr) (now : ℚ) : List (String × ℚ × ℚ) :=
  keepMove "jab" (detect_jab sqrtFn pd) (1/2) now ++
  keepMove "cross" (detect_cross sqrtFn pd) (1/2) now ++
  keepMove "hook" (detect_hook pd) (1/2) now ++
  keepMove "uppercut" (detect_uppercut pd) (1/2) now ++
  keepMove "block" (detect_block pd) (1/2) now ++
  keepMove "dodge" (detect_dodge pd) (1/2) now ++
  keepMove "guard" (detect_guard pd) (1/2) now

/-- `PoseDetector._detect_boxing_moves` from
`pose-detection/pose_detector.py`: the same detectors filtered by the
per-move `move_thresholds` table. -/
def standalone_detect_boxing_moves (sqrtFn : ℚ → ℚ) (pd : PoseArr) (now : ℚ) :
    List (String × ℚ × ℚ) :=
  keepMove "jab" (detect_jab sqrtFn pd) (7/10) now ++
  keepMove "cross" (detect_cross sqrtFn pd) (7/10) now ++
  keepMove "hook" (detect_hook pd) (3/5) now ++
  keepMove "uppercut" (detect_uppercut pd) (3/5) now ++
  keepMove "block" (detect_block pd) (1/2) now ++
  keepMove "dodge" (detect_dodge pd) (1/2) now ++
  keepMove "guard" (detect_guard pd) (1/2) now

/-- Forget the timestamp of a classified move. -/
def dropTimestamp (e : String × ℚ × ℚ) : String × ℚ := (e.1, e.2.1)

end BoxingClassifier

namespace BoxingGame

/-- Evidence used by witnesses: two players registered and the match
started at time 0. -/
def exOpsBase : List Op := [.register "p1" "Alice", .register "p2" "Bob", .start 0]

/-- A full-confidence jab from `p1`. -/
def exJab : ActionData := ⟨some "p1", some "jab", some 1, some 0⟩

/-- A full-confidence uppercut from `p1`. -/
def exUppercut : ActionData := ⟨some "p1", some "uppercut", some 1, some 0⟩

/-- Ops: register both players, start, land one jab. -/
def exOpsHit : List Op := exOpsBase ++ [.processBatch 0 [exJab]]

/-- The state after `exOpsBase`. -/
def exStarted : Game := runOps exOpsBase

/-- A knocked-out `p2`. -/
def exKOPlayer : Player := ⟨"p2", "Bob", 0, 0, none, none, false, false⟩

/-- A PLAYING state in which `p2` is already at health 0. -/
def exKOGame : Game where
  state := .playing
  players := [("p1", ⟨"p1", "Alice", 100, 0, none, none, false, false⟩), ("p2", exKOPlayer)]
  round_time := 180
  current_round := 1
  max_rounds := 3
  game_start_time := some 0
  last_update_time := none

/-- `p2` after one full-confidence jab from `p1`. -/
def exP2Hit : Player := ⟨"p2", "Bob", 90, 0, none, none, false, false⟩

/-- The state reached by `exOpsHit`: one full-confidence jab landed by
`p1` against `p2` at time 0. -/
def exScoredGame : Game where
  state := .playing
  players := [("p1", ⟨"p1", "Alice", 100, 10, some "jab", some 0, false, false⟩),
              ("p2", exP2Hit)]
  round_time := 180
  current_round := 1
  max_rounds := 3
  game_start_time := some 0
  last_update_time := some 0

/-- A single registered player, match started at the (truthy) time 5. -/
def exOneOps : List Op := [.register "p1" "Alice", .start 5]

/-- A batch holding one action with an unrecognized move string. -/
def exBadBatch : List ActionData := [⟨some "p1", some "fly", some 1, some 1⟩]

/-- Two players registered and the match started at the (truthy)
time 5. -/
def exOpsBase5 : List Op := [.register "p1" "Alice", .register "p2" "Bob", .start 5]

/-- The state after `exOpsBase5`. -/
def exStarted5 : Game := runOps exOpsBase5

/-- The intermediate state of an empty batch processed at time 200
after `exOpsBase5` (used by the round-timeout witness). -/
def exTimedMid5 : Game := {exStarted5 with last_update_time := some 200}

/-- A blocking `p2` used by the damage witness. -/
def exBlocker : Player := ⟨"p2", "Bob", 100, 0, some "block", some 0, true, false⟩

/-- An attacking `p1` used by the damage witness. -/
def exAttacker : Player := ⟨"p1", "Alice", 100, 0, none, none, false, false⟩

/-- A PLAYING state in which `p2` is blocking. -/
def exBlockedGame : Game where
  state := .playing
  players := [("p1", exAttacker), ("p2", exBlocker)]
  round_time := 180
  current_round := 1
  max_rounds := 3
  game_start_time := some 0
  last_update_time := none

end BoxingGame

namespace BoxingGame

theorem dictGet_dictSet_self (ps : List (String × Player)) (k : String) (v : Player) :
    dictGet (dictSet ps k v) k = some v := by
  induction ps with
  | nil => simp [dictGet, dictSet]
  | cons kv rest ih =>
    by_cases h : kv.1 = k
    · simp [dictGet, dictSet, h]
    · simp [dictGet, dictSet, h, ih]

theorem dictGet_dictSet_ne (ps : List (String × Player)) (k q : String) (v : Player)
    (h : q ≠ k) : dictGet (dictSet ps k v) q = dictGet ps q := by
  induction ps with
  | nil =>
    simp only [dictSet, dictGet]
    rw [if_neg (Ne.symm h)]
  | cons kv rest ih =>
    by_cases hk : kv.1 = k
    · simp only [dictSet, if_pos hk, dictGet]
      rw [if_neg (Ne.symm h), if_neg (show ¬kv.1 = q by rw [hk]; exact Ne.symm h)]
    · simp only [dictSet, if_neg hk, dictGet]
      by_cases hq : kv.1 = q
      · rw [if_pos hq, if_pos hq]
      · rw [if_neg hq, if_neg hq, ih]

theorem dictGet_mem {ps : List (String × Player)} {k : String} {v : Player}
    (h : dictGet ps k = some v) : (k, v) ∈ ps := by
  induction ps with
  | nil => simp [dictGet] at h
  | cons kv rest ih =>
    by_cases hk : kv.1 = k
    · simp only [dictGet, if_pos hk] at h
      have hv : kv.2 = v := Option.some.inj h
      have hkv : kv = (k, v) := by
        obtain ⟨a, b⟩ := kv
        simp_all
      exact hkv ▸ List.mem_cons_self _ _
    · simp only [dictGet, if_neg hk] at h
      exact List.mem_cons_of_mem _ (ih h)

theorem dictGet_map_val (ps : List (String × Player)) (f : Player → Player) (q : String) :
    dictGet (ps.map fun kv => (kv.1, f kv.2)) q = (dictGet ps q).map f := by
  induction ps with
  | nil => simp [dictGet]
  | cons kv rest ih =>
    by_cases hk : kv.1 = q
    · simp [dictGet, hk]
    · simp [dictGet, hk, ih]

theorem mem_dictDel {ps : List (String × Player)} {k : String} {kv : String × Player}
    (h : kv ∈ dictDel ps k) : kv ∈ ps := by
  induction ps with
  | nil => simp [dictDel] at h
  | cons hd rest ih =>
    by_cases hk : hd.1 = k
    · simp only [dictDel, if_pos hk] at h
      exact List.mem_cons_of_mem _ h
    · simp only [dictDel, if_neg hk] at h
      rcases List.mem_cons.mp h with h | h
      · exact h ▸ List.mem_cons_self _ _
      · exact List.mem_cons_of_mem _ (ih h)

theorem dictGet_dictDel_ne (ps : List (String × Player)) (k q : String) (h : q ≠ k) :
    dictGet (dictDel ps k) q = dictGet ps q := by
  induction ps with
  | nil => simp [dictDel]
  | cons kv rest ih =>
    by_cases hk : kv.1 = k
    · simp only [dictDel, if_pos hk, dictGet]
      rw [if_neg (show ¬kv.1 = q by rw [hk]; exact Ne.symm h)]
    · simp only [dictDel, if_neg hk, dictGet]
      by_cases hq : kv.1 = q
      · rw [if_pos hq, if_pos hq]
      · rw [if_neg hq, if_neg hq, ih]

theorem dictGet_eq_none_iff (ps : List (String × Player)) (k : String) :
    dictGet ps k = none ↔ k ∉ ps.map Prod.fst := by
  induction ps with
  | nil => simp [dictGet]
  | cons kv rest ih =>
    by_cases hk : kv.1 = k
    · simp [dictGet, hk]
    · simp [dictGet, hk, ih, Ne.symm hk]

theorem dictGet_dictDel_self_nodup (ps : List (String × Player)) (k : String)
    (h : (ps.map Prod.fst).Nodup) : dictGet (dictDel ps k) k = none := by
  induction ps with
  | nil => simp [dictDel, dictGet]
  | cons kv rest ih =>
    simp only [List.map_cons, List.nodup_cons] at h
    by_cases hk : kv.1 = k
    · subst hk
      simp only [dictDel, if_pos rfl]
      exact (dictGet_eq_none_iff rest kv.1).mpr h.1
    · simp [dictDel, dictGet, hk, ih h.2]

theorem keys_dictSet_present (ps : List (String × Player)) (k : String) (v w : Player)
    (h : dictGet ps k = some w) :
    (dictSet ps k v).map Prod.fst = ps.map Prod.fst := by
  induction ps with
  | nil => simp [dictGet] at h
  | cons kv rest ih =>
    by_cases hk : kv.1 = k
    · simp [dictSet, hk]
    · simp only [dictGet, if_neg hk] at h
      simp [dictSet, hk, ih h]

theorem keys_dictSet_absent (ps : List (String × Player)) (k : String) (v : Player)
    (h : dictGet ps k = none) :
    (dictSet ps k v).map Prod.fst = ps.map Prod.fst ++ [k] := by
  induction ps with
  | nil => simp [dictSet]
  | cons kv rest ih =>
    by_cases hk : kv.1 = k
    · simp [dictGet, hk] at h
    · simp only [dictGet, if_neg hk] at h
      simp [dictSet, hk, ih h]

theorem mem_dictSet {ps : List (String × Player)} {k : String} {v : Player}
    {kv : String × Player} (h : kv ∈ dictSet ps k v) : kv ∈ ps ∨ kv = (k, v) := by
  induction ps with
  | nil =>
    simp only [dictSet, List.mem_singleton] at h
    exact Or.inr h
  | cons hd rest ih =>
    by_cases hk : hd.1 = k
    · simp only [dictSet, if_pos hk] at h
      rcases List.mem_cons.mp h with h | h
      · exact Or.inr h
      · exact Or.inl (List.mem_cons_of_mem _ h)
    · simp only [dictSet, if_neg hk] at h
      rcases List.mem_cons.mp h with h | h
      · exact Or.inl (h ▸ List.mem_cons_self _ _)
      · rcases ih h with h | h
        · exact Or.inl (List.mem_cons_of_mem _ h)
        · exact Or.inr h

theorem length_dictSet_present (ps : List (String × Player)) (k : String) (v w : Player)
    (h : dictGet ps k = some w) : (dictSet ps k v).length = ps.length := by
  have := keys_dictSet_present ps k v w h
  have h1 : ((dictSet ps k v).map Prod.fst).length = (ps.map Prod.fst).length := by rw [this]
  simpa using h1

theorem find?_ne_dictSet (ps : List (String × Player)) (k : String) (v w : Player)
    (h : dictGet ps k = some w) :
    (dictSet ps k v).find? (fun kv => decide (kv.1 ≠ k)) =
      ps.find? (fun kv => decide (kv.1 ≠ k)) := by
  induction ps with
  | nil => simp [dictGet] at h
  | cons kv rest ih =>
    by_cases hk : kv.1 = k
    · subst hk
      simp [dictSet, List.find?]
    · simp only [dictGet, if_neg hk] at h
      simp [dictSet, hk, List.find?, ih h]

theorem dictGet_of_mem_nodup {ps : List (String × Player)} {k : String} {v : Player}
    (hnd : (ps.map Prod.fst).Nodup) (h : (k, v) ∈ ps) : dictGet ps k = some v := by
  induction ps with
  | nil => simp at h
  | cons kv rest ih =>
    simp only [List.map_cons, List.nodup_cons] at hnd
    rcases List.mem_cons.mp h with h | h
    · rw [← h]
      simp [dictGet]
    · have hk : kv.1 ≠ k := by
        intro hh
        exact hnd.1 (hh ▸ (List.mem_map.mpr ⟨(k, v), h, rfl⟩))
      simp [dictGet, hk, ih hnd.2 h]

theorem get_opp_list_props {ps : List (String × Player)} {pid oid : String} {opp : Player}
    (h : get_opp_list ps pid = some (oid, opp)) :
    dictGet ps oid = some opp ∧ oid ≠ pid := by
  unfold get_opp_list at h
  by_cases hlen : ps.length == 1
  · simp [hlen] at h
  · rw [if_neg hlen] at h
    clear hlen
    induction ps with
    | nil => simp at h
    | cons kv rest ih =>
      by_cases hne : kv.1 ≠ pid
      · rw [List.find?_cons_of_pos _ (by simpa using hne)] at h
        cases h
        exact ⟨by simp [dictGet], hne⟩
      · rw [List.find?_cons_of_neg _ (by simpa using hne)] at h
        push_neg at hne
        rcases ih h with ⟨h1, h2⟩
        have : kv.1 ≠ oid := by
          rw [hne]
          exact fun hh => h2 hh.symm
        exact ⟨by simp [dictGet, this, h1], h2⟩

theorem get_opp_list_dictSet (ps : List (String × Player)) (pid : String) (v w : Player)
    (h : dictGet ps pid = some w) :
    get_opp_list (dictSet ps pid v) pid = get_opp_list ps pid := by
  unfold get_opp_list
  rw [length_dictSet_present ps pid v w h, find?_ne_dictSet ps pid v w h]

theorem head?_orderedInsert (a : Player) (l : List Player) :
    (List.orderedInsert lexGe a l).head? =
      match l.head? with
      | none => some a
      | some b => if lexGe a b then some a else some b := by
  cases l with
  | nil => rfl
  | cons b bs =>
    simp only [List.orderedInsert, List.head?]
    by_cases h : lexGe a b
    · rw [if_pos h, if_pos h]
    · rw [if_neg h, if_neg h]

theorem head?_sortPlayersDesc (l : List Player) :
    (sortPlayersDesc l).head? = firstMax l := by
  induction l with
  | nil => rfl
  | cons a as ih =>
    show (List.orderedInsert lexGe a (List.insertionSort lexGe as)).head? = _
    rw [head?_orderedInsert]
    rw [show (List.insertionSort lexGe as).head? = firstMax as from ih]
    show _ = firstMax (a :: as)
    simp only [firstMax]

theorem pyInt_eq_floor (q : ℚ) (h : 0 ≤ q) : pyInt q = ⌊q⌋ := by
  unfold pyInt
  rw [if_pos h]

theorem calculate_damage_nonneg (mt : MoveType) (c : ℚ) (opp : Player) :
    0 ≤ calculate_damage mt c opp := le_max_left 0 _

theorem parseMoveType_value (mt : MoveType) : parseMoveType mt.value = some mt := by
  cases mt <;> decide

theorem parseMoveType_eq_none_iff (s : String) :
    parseMoveType s = none ↔
      s ∉ (["jab", "cross", "hook", "uppercut", "block", "dodge", "guard"] : List String) := by
  unfold parseMoveType
  split_ifs with h1 h2 h3 h4 h5 h6 h7 <;> simp_all

theorem calculate_damage_eq_refDamage (mt : MoveType) (c : ℚ) (opp : Player)
    (hmt : mt = .jab ∨ mt = .cross ∨ mt = .hook ∨ mt = .uppercut) (hc : 0 ≤ c) :
    calculate_damage mt c opp = refDamage mt c opp.is_blocking opp.is_dodging := by
  have base_step : ∀ b : ℤ, 0 ≤ b →
      pyInt ((b : ℚ) * c) = ⌊(b : ℚ) * c⌋ := by
    intro b hb
    exact pyInt_eq_floor _ (mul_nonneg (by exact_mod_cast hb) hc)
  have blk_step : ∀ (d : ℤ) (e : ℚ), 0 ≤ d → 0 ≤ e →
      pyInt ((d : ℚ) * e) = ⌊(d : ℚ) * e⌋ := by
    intro d e hd he
    exact pyInt_eq_floor _ (mul_nonneg (by exact_mod_cast hd) he)
  have floor_nn : ∀ b : ℤ, 0 ≤ b → (0 : ℤ) ≤ ⌊(b : ℚ) * c⌋ := by
    intro b hb
    exact Int.le_floor.mpr (by push_cast; exact mul_nonneg (by exact_mod_cast hb) hc)
  rcases hmt with h | h | h | h <;> subst h <;>
    unfold calculate_damage refDamage move_damage move_effectiveness <;>
    cases hb : opp.is_blocking <;> cases hd : opp.is_dodging <;>
    simp only [if_true, if_false, Bool.false_eq_true, Bool.true_eq_false, ite_true,
      ite_false] <;>
    rw [base_step _ (by norm_num)] <;>
    first
      | rfl
      | rw [blk_step _ _ (floor_nn _ (by norm_num)) (by norm_num)]

theorem healthP_of_mem {ps : List (String × Player)} (h : HealthOK ps) {p : Player}
    (hp : p ∈ ps.map Prod.snd) : 0 ≤ p.health ∧ p.health ≤ 100 := by
  rcases List.mem_map.mp hp with ⟨kv, hkv, hv⟩
  exact hv ▸ h kv hkv

theorem healthOK_dictSet {ps : List (String × Player)} (h : HealthOK ps)
    {k : String} {v : Player} (hv : 0 ≤ v.health ∧ v.health ≤ 100) :
    HealthOK (dictSet ps k v) := by
  intro kv hkv
  rcases mem_dictSet hkv with h' | h'
  · exact h kv h'
  · rw [h']
    exact hv

theorem healthOK_map (ps : List (String × Player)) (f : Player → Player)
    (hf : ∀ p : Player, 0 ≤ (f p).health ∧ (f p).health ≤ 100) :
    HealthOK (ps.map fun kv => (kv.1, f kv.2)) := by
  intro kv hkv
  rcases List.mem_map.mp hkv with ⟨a, _, ha⟩
  rw [← ha]
  exact hf a.2

theorem healthOK_resolve_offense (g : Game) (a : GameAction) (actor : Player) (mt : MoveType)
    (h : HealthOK g.players) (ha : 0 ≤ actor.health ∧ actor.health ≤ 100) :
    HealthOK (resolve_offense g a actor mt).players := by
  unfold resolve_offense
  cases hopp : get_opponent g a.player_id with
  | none => exact h
  | some kv =>
    obtain ⟨oid, opp⟩ := kv
    dsimp only
    rcases get_opp_list_props hopp with ⟨hget, _⟩
    have hopp_bounds := h _ (dictGet_mem hget)
    have hdmg := calculate_damage_nonneg mt a.confidence opp
    have hnew : 0 ≤ (apply_damage opp (calculate_damage mt a.confidence opp)).health ∧
        (apply_damage opp (calculate_damage mt a.confidence opp)).health ≤ 100 := by
      unfold apply_damage
      constructor
      · exact le_max_left 0 _
      · exact max_le (by norm_num) (by dsimp only at hopp_bounds ⊢; omega)
    by_cases hpos : 0 < calculate_damage mt a.confidence opp
    · rw [if_pos hpos]
      refine healthOK_dictSet (healthOK_dictSet h ?_) ?_
      · exact hnew
      · exact ha
    · rw [if_neg hpos]
      exact healthOK_dictSet h hnew

theorem healthOK_process_known_move (g : Game) (a : GameAction) (player : Player)
    (mt : MoveType) (h : HealthOK g.players)
    (hp : 0 ≤ player.health ∧ player.health ≤ 100) :
    HealthOK (process_known_move g a player mt).players := by
  unfold process_known_move
  dsimp only
  split_ifs
  · refine healthOK_dictSet (healthOK_dictSet h ?_) ?_ <;> exact hp
  · refine healthOK_dictSet (healthOK_dictSet h ?_) ?_ <;> exact hp
  · refine healthOK_dictSet (healthOK_dictSet h ?_) ?_ <;> exact hp
  · refine healthOK_resolve_offense _ _ _ _ (healthOK_dictSet h ?_) ?_ <;> exact hp

theorem healthOK_process_single_action (g : Game) (a : GameAction)
    (h : HealthOK g.players) : HealthOK (process_single_action g a).1.players := by
  unfold process_single_action
  cases hget : dictGet g.players a.player_id with
  | none => exact h
  | some player =>
    cases hmt : parseMoveType a.move_type with
    | none => exact h
    | some mt => exact healthOK_process_known_move _ _ _ _ h (h _ (dictGet_mem hget))

theorem healthOK_apply_actions (now : ℚ) (acts : List ActionData) :
    ∀ g : Game, HealthOK g.players → HealthOK (apply_actions g now acts).1.players := by
  induction acts with
  | nil => intro g h; exact h
  | cons a rest ih =>
    intro g h
    unfold apply_actions
    cases hmv : a.move with
    | none => exact ih g h
    | some mv =>
      cases hcf : a.confidence with
      | none => exact ih g h
      | some conf =>
        dsimp only
        have hsingle := healthOK_process_single_action g
          ⟨a.player_id.getD "player1", mv, conf, a.timestamp.getD now⟩ h
        cases hps : process_single_action g
            ⟨a.player_id.getD "player1", mv, conf, a.timestamp.getD now⟩ with
        | mk g' e =>
          rw [hps] at hsingle
          cases e with
          | none => exact ih g' hsingle
          | some err => exact hsingle

theorem healthOK_handle_knockout (g : Game) (ko : Player) (h : HealthOK g.players) :
    HealthOK (handle_knockout g ko).players := by
  unfold handle_knockout
  cases hw : (g.players.map Prod.snd).find? (fun p => decide (p.id ≠ ko.id)) with
  | none => exact h
  | some w =>
    have hwmem : w ∈ g.players.map Prod.snd := List.mem_of_find?_eq_some hw
    have hb := healthP_of_mem h hwmem
    exact healthOK_dictSet h ⟨hb.1, hb.2⟩

theorem resetForRound_health (p : Player) :
    0 ≤ (resetForRound p).health ∧ (resetForRound p).health ≤ 100 :=
  ⟨show (0 : ℤ) ≤ 100 by norm_num, show (100 : ℤ) ≤ 100 by norm_num⟩

theorem resetForStart_health (p : Player) :
    0 ≤ (resetForStart p).health ∧ (resetForStart p).health ≤ 100 :=
  ⟨show (0 : ℤ) ≤ 100 by norm_num, show (100 : ℤ) ≤ 100 by norm_num⟩

theorem mem_of_head?_sortPlayersDesc {l : List Player} {w : Player}
    (hw : (sortPlayersDesc l).head? = some w) : w ∈ l := by
  have hsort : w ∈ sortPlayersDesc l := by
    cases hs : sortPlayersDesc l with
    | nil => rw [hs] at hw; simp at hw
    | cons b t =>
      rw [hs] at hw
      simp only [List.head?] at hw
      rw [← Option.some.inj hw]
      exact List.mem_cons_self b t
  exact (List.perm_insertionSort lexGe _).mem_iff.mp hsort

theorem healthOK_handle_round_end (g : Game) (now : ℚ) (h : HealthOK g.players) :
    HealthOK (handle_round_end g now).players := by
  unfold handle_round_end
  by_cases h2 : 2 ≤ g.players.length
  · rw [if_pos h2]
    cases hw : (sortPlayersDesc (g.players.map Prod.snd)).head? with
    | none =>
      dsimp only
      split_ifs
      · exact h
      · exact healthOK_map _ resetForRound resetForRound_health
    | some w =>
      have hwmem : w ∈ g.players.map Prod.snd := mem_of_head?_sortPlayersDesc hw
      have hb := healthP_of_mem h hwmem
      have hok : HealthOK (dictSet g.players w.id {w with score := w.score + 25}) :=
        healthOK_dictSet h ⟨hb.1, hb.2⟩
      dsimp only
      split_ifs
      · exact hok
      · exact healthOK_map _ resetForRound resetForRound_health
  · rw [if_neg h2]
    dsimp only
    split_ifs
    · exact h
    · exact healthOK_map _ resetForRound resetForRound_health

theorem healthOK_check_game_conditions (g : Game) (now : ℚ) (h : HealthOK g.players) :
    HealthOK (check_game_conditions g now).players := by
  unfold check_game_conditions
  cases hko : g.players.find? (fun kv => decide (kv.2.health ≤ 0)) with
  | some kv => exact healthOK_handle_knockout g kv.2 h
  | none =>
    cases hst : g.game_start_time with
    | none => exact h
    | some t0 =>
      dsimp only
      split_ifs
      · exact h
      · exact healthOK_handle_round_end g now h
      · exact h

theorem healthInv_runOp (g : Game) (op : Op) (h : HealthInv g) : HealthInv (runOp g op) := by
  cases op with
  | register pid nm =>
    unfold runOp add_player
    dsimp only
    exact healthOK_dictSet h (by unfold freshPlayer; exact ⟨by norm_num, by norm_num⟩)
  | deregister pid =>
    unfold runOp remove_player
    dsimp only
    split_ifs
    · exact fun kv hkv => h kv (mem_dictDel hkv)
    · exact h
  | start now =>
    unfold runOp start_game
    dsimp only
    split_ifs
    · exact h
    · exact healthOK_map _ resetForStart resetForStart_health
  | pause =>
    unfold runOp pause_game
    exact h
  | resume =>
    unfold runOp resume_game
    dsimp only
    split_ifs
    · exact h
    · exact h
  | finish =>
    unfold runOp end_game
    exact h
  | processBatch now acts =>
    unfold runOp process_actions
    dsimp only
    split_ifs
    · have hmid := healthOK_apply_actions now acts {g with last_update_time := some now} h
      cases hps : apply_actions {g with last_update_time := some now} now acts with
      | mk g1 e =>
        rw [hps] at hmid
        cases e with
        | none => exact healthOK_check_game_conditions g1 now hmid
        | some err => exact hmid
    · exact h

theorem healthInv_foldl (ops : List Op) :
    ∀ g : Game, HealthInv g → HealthInv (ops.foldl runOp g) := by
  induction ops with
  | nil => exact fun g h => h
  | cons op rest ih => exact fun g h => ih _ (healthInv_runOp g op h)

theorem healthInv_runOps (ops : List Op) : HealthInv (runOps ops) := by
  have hinit : HealthInv initGame := by
    intro kv hkv
    simp [initGame] at hkv
  exact healthInv_foldl ops initGame hinit

theorem scoreStep_refl (ps : List (String × Player)) : ScoreStep ps ps :=
  fun _ p hget => ⟨p, hget, le_refl _⟩

theorem scoreStep_trans {ps qs rs : List (String × Player)}
    (h1 : ScoreStep ps qs) (h2 : ScoreStep qs rs) : ScoreStep ps rs := by
  intro k p hget
  rcases h1 k p hget with ⟨q, hq, hpq⟩
  rcases h2 k q hq with ⟨r, hr, hqr⟩
  exact ⟨r, hr, le_trans hpq hqr⟩

theorem scoreStep_dictSet_update {ps : List (String × Player)} {k : String} {p v : Player}
    (hget : dictGet ps k = some p) (hs : p.score ≤ v.score) :
    ScoreStep ps (dictSet ps k v) := by
  intro q pq hq
  by_cases hqk : q = k
  · subst hqk
    rw [hget] at hq
    cases hq
    exact ⟨v, dictGet_dictSet_self ps q v, hs⟩
  · exact ⟨pq, by rw [dictGet_dictSet_ne ps k q v hqk]; exact hq, le_refl _⟩

theorem scoreStep_dictSet_absent {ps : List (String × Player)} {k : String} {v : Player}
    (hget : dictGet ps k = none) : ScoreStep ps (dictSet ps k v) := by
  intro q pq hq
  by_cases hqk : q = k
  · subst hqk
    rw [hget] at hq
    cases hq
  · exact ⟨pq, by rw [dictGet_dictSet_ne ps k q v hqk]; exact hq, le_refl _⟩

theorem scoreStep_map (ps : List (String × Player)) (f : Player → Player)
    (hf : ∀ p : Player, p.score ≤ (f p).score) :
    ScoreStep ps (ps.map fun kv => (kv.1, f kv.2)) := by
  intro k p hget
  refine ⟨f p, ?_, hf p⟩
  rw [dictGet_map_val, hget]
  rfl

theorem scoreStep_resolve_offense (g : Game) (a : GameAction) (actor : Player) (mt : MoveType)
    (hactor : dictGet g.players a.player_id = some actor) :
    ScoreStep g.players (resolve_offense g a actor mt).players := by
  unfold resolve_offense
  cases hopp : get_opponent g a.player_id with
  | none => exact scoreStep_refl _
  | some kv =>
    obtain ⟨oid, opp⟩ := kv
    dsimp only
    rcases get_opp_list_props hopp with ⟨hget, hne⟩
    have step1 : ScoreStep g.players
        (dictSet g.players oid (apply_damage opp (calculate_damage mt a.confidence opp))) :=
      scoreStep_dictSet_update hget (le_refl _)
    by_cases hpos : 0 < calculate_damage mt a.confidence opp
    · rw [if_pos hpos]
      refine scoreStep_trans step1 ?_
      have hactor2 : dictGet
          (dictSet g.players oid (apply_damage opp (calculate_damage mt a.confidence opp)))
          a.player_id = some actor := by
        rw [dictGet_dictSet_ne _ _ _ _ (fun hh => hne hh.symm)]
        exact hactor
      exact scoreStep_dictSet_update hactor2
        (le_add_of_nonneg_right (le_of_lt hpos))
    · rw [if_neg hpos]
      exact step1

theorem scoreStep_process_known_move (g : Game) (a : GameAction) (player : Player)
    (mt : MoveType) (hget : dictGet g.players a.player_id = some player) :
    ScoreStep g.players (process_known_move g a player mt).players := by
  unfold process_known_move
  dsimp only
  have step0 : ScoreStep g.players (dictSet g.players a.player_id
      {player with last_move := some a.move_type, last_move_time := some a.timestamp}) :=
    scoreStep_dictSet_update hget (le_refl _)
  have hget1 : dictGet (dictSet g.players a.player_id
      {player with last_move := some a.move_type, last_move_time := some a.timestamp})
      a.player_id = some
      {player with last_move := some a.move_type, last_move_time := some a.timestamp} :=
    dictGet_dictSet_self _ _ _
  split_ifs
  · exact scoreStep_trans step0 (scoreStep_dictSet_update hget1 (le_refl _))
  · exact scoreStep_trans step0 (scoreStep_dictSet_update hget1 (le_refl _))
  · exact scoreStep_trans step0 (scoreStep_dictSet_update hget1 (le_refl _))
  · refine scoreStep_trans step0 ?_
    exact scoreStep_resolve_offense {g with players := dictSet g.players a.player_id {player with last_move := some a.move_type, last_move_time := some a.timestamp}} a {player with last_move := some a.move_type, last_move_time := some a.timestamp} mt hget1

theorem scoreStep_process_single_action (g : Game) (a : GameAction) :
    ScoreStep g.players (process_single_action g a).1.players := by
  unfold process_single_action
  cases hget : dictGet g.players a.player_id with
  | none => exact scoreStep_refl _
  | some player =>
    cases hmt : parseMoveType a.move_type with
    | none => exact scoreStep_refl _
    | some mt => exact scoreStep_process_known_move g a player mt hget

theorem scoreStep_apply_actions (now : ℚ) (acts : List ActionData) :
    ∀ g : Game, ScoreStep g.players (apply_actions g now acts).1.players := by
  induction acts with
  | nil => exact fun g => scoreStep_refl _
  | cons a rest ih =>
    intro g
    unfold apply_actions
    cases hmv : a.move with
    | none => exact ih g
    | some mv =>
      cases hcf : a.confidence with
      | none => exact ih g
      | some conf =>
        dsimp only
        have hsingle := scoreStep_process_single_action g
          ⟨a.player_id.getD "player1", mv, conf, a.timestamp.getD now⟩
        cases hps : process_single_action g
            ⟨a.player_id.getD "player1", mv, conf, a.timestamp.getD now⟩ with
        | mk g' e =>
          rw [hps] at hsingle
          cases e with
          | none => exact scoreStep_trans hsingle (ih g')
          | some err => exact hsingle

theorem wf_dictGet_of_memValue {ps : List (String × Player)} (hw : WfList ps) {p : Player}
    (hp : p ∈ ps.map Prod.snd) : dictGet ps p.id = some p := by
  rcases List.mem_map.mp hp with ⟨kv, hkv, hv⟩
  have hid : kv.2.id = kv.1 := hw.1 kv hkv
  have : kv = (p.id, p) := by
    obtain ⟨a, b⟩ := kv
    simp only at hv hid
    rw [hv] at hid
    rw [← hid, ← hv]
  exact dictGet_of_mem_nodup hw.2 (this ▸ hkv)

theorem scoreStep_handle_knockout (g : Game) (ko : Player) (hw : WfList g.players) :
    ScoreStep g.players (handle_knockout g ko).players := by
  unfold handle_knockout
  cases hfw : (g.players.map Prod.snd).find? (fun p => decide (p.id ≠ ko.id)) with
  | none => exact scoreStep_refl _
  | some w =>
    have hwmem : w ∈ g.players.map Prod.snd := List.mem_of_find?_eq_some hfw
    have hget := wf_dictGet_of_memValue hw hwmem
    exact scoreStep_dictSet_update hget (by dsimp only; omega)

theorem scoreStep_handle_round_end (g : Game) (now : ℚ) (hw : WfList g.players) :
    ScoreStep g.players (handle_round_end g now).players := by
  unfold handle_round_end
  have hbonus : ∀ ps : List (String × Player), WfList ps → ScoreStep g.players ps →
      ScoreStep g.players (if g.max_rounds < g.current_round + 1 then ps
        else ps.map fun kv => (kv.1, resetForRound kv.2)) := by
    intro ps hwps hstep
    split_ifs
    · exact hstep
    · exact scoreStep_trans hstep
        (scoreStep_map ps resetForRound (fun p => le_refl _))
  by_cases h2 : 2 ≤ g.players.length
  · rw [if_pos h2]
    cases hw' : (sortPlayersDesc (g.players.map Prod.snd)).head? with
    | none =>
      dsimp only
      split_ifs
      · exact scoreStep_refl _
      · exact scoreStep_map _ resetForRound (fun p => le_refl _)
    | some w =>
      have hwmem : w ∈ g.players.map Prod.snd := mem_of_head?_sortPlayersDesc hw'
      have hget := wf_dictGet_of_memValue hw hwmem
      have hstep : ScoreStep g.players
          (dictSet g.players w.id {w with score := w.score + 25}) :=
        scoreStep_dictSet_update hget (by dsimp only; omega)
      dsimp only
      split_ifs
      · exact hstep
      · exact scoreStep_trans hstep
          (scoreStep_map _ resetForRound (fun p => le_refl _))
  · rw [if_neg h2]
    dsimp only
    split_ifs
    · exact scoreStep_refl _
    · exact scoreStep_map _ resetForRound (fun p => le_refl _)

theorem wfList_dictSet_present {ps : List (String × Player)} {k : String} {v w : Player}
    (hw : WfList ps) (hget : dictGet ps k = some w) (hid : v.id = k) :
    WfList (dictSet ps k v) := by
  constructor
  · intro kv hkv
    rcases mem_dictSet hkv with h' | h'
    · exact hw.1 kv h'
    · rw [h']
      exact hid
  · rw [keys_dictSet_present ps k v w hget]
    exact hw.2

theorem wfList_resolve_offense (g : Game) (a : GameAction) (actor : Player) (mt : MoveType)
    (hw : WfList g.players) (hactor : dictGet g.players a.player_id = some actor) :
    WfList (resolve_offense g a actor mt).players := by
  unfold resolve_offense
  cases hopp : get_opponent g a.player_id with
  | none => exact hw
  | some kv =>
    obtain ⟨oid, opp⟩ := kv
    dsimp only
    rcases get_opp_list_props hopp with ⟨hget, hne⟩
    have hid_opp : opp.id = oid := hw.1 _ (dictGet_mem hget)
    have hid_actor : actor.id = a.player_id := hw.1 _ (dictGet_mem hactor)
    have hw1 : WfList (dictSet g.players oid
        (apply_damage opp (calculate_damage mt a.confidence opp))) :=
      wfList_dictSet_present hw hget hid_opp
    by_cases hpos : 0 < calculate_damage mt a.confidence opp
    · rw [if_pos hpos]
      have hactor2 : dictGet (dictSet g.players oid
          (apply_damage opp (calculate_damage mt a.confidence opp)))
          a.player_id = some actor := by
        rw [dictGet_dictSet_ne _ _ _ _ (fun hh => hne hh.symm)]
        exact hactor
      exact wfList_dictSet_present hw1 hactor2 hid_actor
    · rw [if_neg hpos]
      exact hw1

theorem wfList_process_known_move (g : Game) (a : GameAction) (player : Player)
    (mt : MoveType) (hw : WfList g.players)
    (hget : dictGet g.players a.player_id = some player) :
    WfList (process_known_move g a player mt).players := by
  have hid : player.id = a.player_id := hw.1 _ (dictGet_mem hget)
  unfold process_known_move
  dsimp only
  have hw1 : WfList (dictSet g.players a.player_id
      {player with last_move := some a.move_type, last_move_time := some a.timestamp}) :=
    wfList_dictSet_present hw hget hid
  have hget1 : dictGet (dictSet g.players a.player_id
      {player with last_move := some a.move_type, last_move_time := some a.timestamp})
      a.player_id = some
      {player with last_move := some a.move_type, last_move_time := some a.timestamp} :=
    dictGet_dictSet_self _ _ _
  split_ifs
  · exact wfList_dictSet_present hw1 hget1 hid
  · exact wfList_dictSet_present hw1 hget1 hid
  · exact wfList_dictSet_present hw1 hget1 hid
  · exact wfList_resolve_offense {g with players := dictSet g.players a.player_id {player with last_move := some a.move_type, last_move_time := some a.timestamp}} a {player with last_move := some a.move_type, last_move_time := some a.timestamp} mt hw1 hget1

theorem wfList_process_single_action (g : Game) (a : GameAction) (hw : WfList g.players) :
    WfList (process_single_action g a).1.players := by
  unfold process_single_action
  cases hget : dictGet g.players a.player_id with
  | none => exact hw
  | some player =>
    cases hmt : parseMoveType a.move_type with
    | none => exact hw
    | some mt => exact wfList_process_known_move g a player mt hw hget

theorem wfList_apply_actions (now : ℚ) (acts : List ActionData) :
    ∀ g : Game, WfList g.players → WfList (apply_actions g now acts).1.players := by
  induction acts with
  | nil => exact fun g hw => hw
  | cons a rest ih =>
    intro g hw
    unfold apply_actions
    cases hmv : a.move with
    | none => exact ih g hw
    | some mv =>
      cases hcf : a.confidence with
      | none => exact ih g hw
      | some conf =>
        dsimp only
        have hsingle := wfList_process_single_action g
          ⟨a.player_id.getD "player1", mv, conf, a.timestamp.getD now⟩ hw
        cases hps : process_single_action g
            ⟨a.player_id.getD "player1", mv, conf, a.timestamp.getD now⟩ with
        | mk g' e =>
          rw [hps] at hsingle
          cases e with
          | none => exact ih g' hsingle
          | some err => exact hsingle

theorem scoreStep_check_game_conditions (g : Game) (now : ℚ) (hw : WfList g.players) :
    ScoreStep g.players (check_game_conditions g now).players := by
  unfold check_game_conditions
  cases hko : g.players.find? (fun kv => decide (kv.2.health ≤ 0)) with
  | some kv => exact scoreStep_handle_knockout g kv.2 hw
  | none =>
    cases hst : g.game_start_time with
    | none => exact scoreStep_refl _
    | some t0 =>
      dsimp only
      split_ifs
      · exact scoreStep_refl _
      · exact scoreStep_handle_round_end g now hw
      · exact scoreStep_refl _

/-- C1: for every offensive move event (JAB, CROSS, HOOK, UPPERCUT)
applied in PLAYING phase with a known actor and an existing opponent,
the damage subtracted from the opponent's health equals the reference
definition: floor of base damage (JAB=10, CROSS=15, HOOK=20,
UPPERCUT=25) times confidence, refloored through the block
effectiveness table (0.3/0.5/0.7/0.8) when the opponent is blocking,
zeroed unconditionally when the opponent is dodging, and clamped at
zero. -/
theorem c1_offensive_damage_matches_reference
    (g : Game) (pid : String) (player : Player) (mt : MoveType) (c t : ℚ)
    (oid : String) (opp : Player)
    (hphase : g.state = GameState.playing)
    (hget : dictGet g.players pid = some player)
    (hmt : mt = .jab ∨ mt = .cross ∨ mt = .hook ∨ mt = .uppercut)
    (hopp : get_opponent g pid = some (oid, opp))
    (hc0 : 0 ≤ c) (hc1 : c ≤ 1) :
    dictGet (process_single_action g ⟨pid, mt.value, c, t⟩).1.players oid =
      some {opp with health := max 0 (opp.health - refDamage mt c opp.is_blocking opp.is_dodging)} := by
  have hne : oid ≠ pid := (get_opp_list_props hopp).2
  have hcd := calculate_damage_eq_refDamage mt c opp hmt hc0
  have hstep : process_single_action g ⟨pid, mt.value, c, t⟩ =
      (process_known_move g ⟨pid, mt.value, c, t⟩ player mt, none) := by
    unfold process_single_action
    dsimp only
    rw [hget, parseMoveType_value]
  rw [hstep]
  have h1 : mt ≠ MoveType.block := by rcases hmt with rfl | rfl | rfl | rfl <;> simp
  have h2 : mt ≠ MoveType.dodge := by rcases hmt with rfl | rfl | rfl | rfl <;> simp
  have h3 : mt ≠ MoveType.guard := by rcases hmt with rfl | rfl | rfl | rfl <;> simp
  unfold process_known_move
  dsimp only
  rw [if_neg h1, if_neg h2, if_neg h3]
  unfold resolve_offense get_opponent
  dsimp only
  have hopp2 : get_opp_list
      (dictSet g.players pid {player with last_move := some mt.value, last_move_time := some t})
      pid = some (oid, opp) := by
    rw [get_opp_list_dictSet g.players pid _ player hget]
    exact hopp
  rw [hopp2]
  dsimp only
  by_cases hpos : 0 < calculate_damage mt c opp
  · rw [if_pos hpos]
    dsimp only
    rw [dictGet_dictSet_ne _ _ _ _ hne, dictGet_dictSet_self]
    unfold apply_damage
    rw [hcd]
  · rw [if_neg hpos]
    dsimp only
    rw [dictGet_dictSet_self]
    unfold apply_damage
    rw [hcd]

/-- Witness for C1: a full-confidence hook against a blocking opponent
lands `floor(floor(20*1) * 0.7) = 14` damage (spec scenario C). -/
theorem c1_witness :
    exBlockedGame.state = GameState.playing ∧
    dictGet exBlockedGame.players "p1" = some exAttacker ∧
    get_opponent exBlockedGame "p1" = some ("p2", exBlocker) ∧
    0 ≤ (1 : ℚ) ∧ (1 : ℚ) ≤ 1 ∧
    dictGet (process_single_action exBlockedGame
        ⟨"p1", MoveType.value .hook, 1, 0⟩).1.players "p2" =
      some {exBlocker with health := max 0 (exBlocker.health - refDamage .hook 1 exBlocker.is_blocking exBlocker.is_dodging)} :=
  ⟨rfl, by decide, by decide, by norm_num, by norm_num,
    c1_offensive_damage_matches_reference exBlockedGame "p1" exAttacker .hook 1 0 "p2"
      exBlocker rfl (by decide) (Or.inr (Or.inr (Or.inl rfl))) (by decide)
      (by norm_num) (by norm_num)⟩

/-- C2: in every state reachable from the fresh engine by any sequence
of operations (register, deregister, start, pause, resume, finish,
processBatch), every stored participant's health lies in `[0, 100]`. -/
theorem c2_health_always_in_range (ops : List Op) (pid : String) (p : Player)
    (h : dictGet (runOps ops).players pid = some p) :
    0 ≤ p.health ∧ p.health ≤ 100 :=
  healthInv_runOps ops (pid, p) (dictGet_mem h)

/-- Witness for C2: after registering two players and starting, `p2`
is stored with health 100, inside the range. -/
theorem c2_witness :
    dictGet (runOps exOpsBase).players "p2" = some (freshPlayer "p2" "Bob") ∧
    0 ≤ (freshPlayer "p2" "Bob").health ∧ (freshPlayer "p2" "Bob").health ≤ 100 :=
  ⟨by decide, c2_health_always_in_range exOpsBase "p2" (freshPlayer "p2" "Bob") (by decide)⟩

/-- C3: when the end-of-tick check of a PLAYING-phase `processBatch`
call finds a participant with health ≤ 0, the match finishes within the
same call, the first other participant in iteration order gains exactly
+50 score (everything else in the map untouched), and the round-timer
check is skipped (round counter and match-start timestamp keep their
pre-check values). -/
theorem c3_knockout_finishes_match
    (g : Game) (now : ℚ) (acts : List ActionData) (g1 : Game) (k : String) (ko : Player)
    (hphase : g.state = GameState.playing)
    (hacts : apply_actions {g with last_update_time := some now} now acts = (g1, none))
    (hko : g1.players.find? (fun kv => decide (kv.2.health ≤ 0)) = some (k, ko)) :
    (process_actions g now acts).1.state = GameState.finished ∧
    (process_actions g now acts).1.current_round = g1.current_round ∧
    (process_actions g now acts).1.game_start_time = g1.game_start_time ∧
    (match (g1.players.map Prod.snd).find? (fun p => decide (p.id ≠ ko.id)) with
     | some w => (process_actions g now acts).1.players =
         dictSet g1.players w.id {w with score := w.score + 50}
     | none => (process_actions g now acts).1.players = g1.players) := by
  have hred : process_actions g now acts = (check_game_conditions g1 now, none) := by
    unfold process_actions
    rw [if_pos hphase]
    dsimp only
    rw [hacts]
  have hcheck : check_game_conditions g1 now = handle_knockout g1 ko := by
    unfold check_game_conditions
    rw [hko]
  rw [hred]
  dsimp only
  rw [hcheck]
  unfold handle_knockout
  cases hfw : (g1.players.map Prod.snd).find? (fun p => decide (p.id ≠ ko.id)) with
  | none => exact ⟨rfl, rfl, rfl, rfl⟩
  | some w => exact ⟨rfl, rfl, rfl, rfl⟩

/-- Witness for C3: a tick over a state holding a health-0 `p2`
finishes the match, keeps the round counter and start time, and pays
`p1` the +50 bonus. -/
theorem c3_witness :
    exKOGame.state = GameState.playing ∧
    apply_actions {exKOGame with last_update_time := some 0} 0 [] =
      ({exKOGame with last_update_time := some 0}, none) ∧
    ({exKOGame with last_update_time := some 0} : Game).players.find?
      (fun kv => decide (kv.2.health ≤ 0)) = some ("p2", exKOPlayer) ∧
    ((process_actions exKOGame 0 []).1.state = GameState.finished ∧
     (process_actions exKOGame 0 []).1.current_round =
       ({exKOGame with last_update_time := some 0} : Game).current_round ∧
     (process_actions exKOGame 0 []).1.game_start_time =
       ({exKOGame with last_update_time := some 0} : Game).game_start_time ∧
     (match (({exKOGame with last_update_time := some 0} : Game).players.map
          Prod.snd).find? (fun p => decide (p.id ≠ exKOPlayer.id)) with
      | some w => (process_actions exKOGame 0 []).1.players =
          dictSet ({exKOGame with last_update_time := some 0} : Game).players w.id
            {w with score := w.score + 50}
      | none => (process_actions exKOGame 0 []).1.players =
          ({exKOGame with last_update_time := some 0} : Game).players)) :=
  ⟨rfl, rfl, by decide,
    c3_knockout_finishes_match exKOGame 0 [] {exKOGame with last_update_time := some 0}
      "p2" exKOPlayer rfl rfl (by decide)⟩

theorem handle_round_end_eq_spec (g : Game) (now : ℚ) :
    handle_round_end g now = roundEndSpec g now := by
  unfold handle_round_end roundEndSpec
  rw [head?_sortPlayersDesc]

/-- C4 (amended): a PLAYING-phase `processBatch` tick with no knockout,
whose match-start timestamp is set and nonzero (Python truthiness of
`if self.game_start_time:`) and whose elapsed time has reached the
round duration, ends the round as the reference round-end transition
describes: when at least two participants are registered, the first
participant with the lexicographically maximal
`(health desc, score desc)` pair gains exactly +25 (with fewer than
two, no bonus); the round counter advances; past the final round the
phase becomes FINISHED, otherwise every participant's health resets to
100 and posture to neutral while score and last move are kept, and the
match-start timestamp resets to now. -/
theorem c4_round_timeout_ends_round
    (g : Game) (now : ℚ) (acts : List ActionData) (g1 : Game) (t0 : ℚ)
    (hphase : g.state = GameState.playing)
    (hacts : apply_actions {g with last_update_time := some now} now acts = (g1, none))
    (hko : g1.players.find? (fun kv => decide (kv.2.health ≤ 0)) = none)
    (hst : g1.game_start_time = some t0)
    (ht0 : t0 ≠ 0)
    (helapsed : g1.round_time ≤ now - t0) :
    (process_actions g now acts).1 = roundEndSpec g1 now := by
  have hred : process_actions g now acts = (check_game_conditions g1 now, none) := by
    unfold process_actions
    rw [if_pos hphase]
    dsimp only
    rw [hacts]
  rw [hred]
  dsimp only
  unfold check_game_conditions
  rw [hko, hst]
  dsimp only
  rw [if_neg ht0, if_pos helapsed, handle_round_end_eq_spec]

/-- Witness for C4: a two-player match started at the truthy time 5,
ticked with an empty batch at time 200 (elapsed 195 ≥ 180s round
duration). -/
theorem c4_witness :
    exStarted5.state = GameState.playing ∧
    apply_actions {exStarted5 with last_update_time := some 200} 200 [] =
      (exTimedMid5, none) ∧
    exTimedMid5.players.find? (fun kv => decide (kv.2.health ≤ 0)) = none ∧
    exTimedMid5.game_start_time = some 5 ∧
    (5 : ℚ) ≠ 0 ∧
    exTimedMid5.round_time ≤ 200 - 5 ∧
    (process_actions exStarted5 200 []).1 = roundEndSpec exTimedMid5 200 :=
  ⟨rfl, rfl, by decide, by decide, by norm_num, show (180 : ℚ) ≤ 200 - 5 by norm_num,
    c4_round_timeout_ends_round exStarted5 200 [] exTimedMid5 5 rfl rfl (by decide) (by decide)
      (by norm_num) (show (180 : ℚ) ≤ 200 - 5 by norm_num)⟩

/-- Counterexample for C4, at two concrete inputs where the claim's
preconditions (PLAYING, no knockout, elapsed ≥ 180) hold: (a) with a
single registered participant and the match started at time 5, the
round ends but nobody receives the +25 bonus — the top-ranked (only)
participant's score stays 0; (b) with two participants and the match
started at time 0, the falsy start timestamp makes the code skip the
round-timer check entirely — the round does not end at all
(`currentRound` stays 1 and the phase stays PLAYING). -/
theorem c4_counterexample :
    (Option.map Player.score
       (dictGet ((process_actions (runOps exOneOps) 200 []).1).players "p1") = some 0 ∧
     ((process_actions (runOps exOneOps) 200 []).1).current_round = 2) ∧
    (((process_actions exStarted 200 []).1).current_round = 1 ∧
     ((process_actions exStarted 200 []).1).state = GameState.playing) := by
  constructor
  · norm_num [exOneOps, runOps, runOp, initGame, add_player, freshPlayer, dictSet, start_game,
      resetForStart, process_actions, apply_actions, check_game_conditions, handle_round_end,
      sortPlayersDesc, firstMax, dictGet, handle_knockout, resetForRound, List.find?]
  · decide

/-- C5 (amended): failing operations raise a structured error — `start`
with no registered participants fails leaving the state untouched, and
a batch item with an unrecognized move string (for a registered actor
in PLAYING phase) raises an explicit unrecognized-move `ValueError`
naming the string rather than being silently skipped — but the Match is
not rolled back on a batch failure: the updated `lastUpdateTimestamp`
(and any effect of earlier batch items) persists. -/
theorem c5_failure_behavior :
    (∀ (g : Game) (now : ℚ) (pid : String) (p : Player) (mv : String) (c t : ℚ),
      g.state = GameState.playing →
      dictGet g.players pid = some p →
      parseMoveType mv = none →
      process_actions g now [⟨some pid, some mv, some c, some t⟩] =
        ({g with last_update_time := some now}, some (PyError.valueError mv))) ∧
    (∀ (g : Game) (now : ℚ), g.players = [] →
      start_game g now = (g, some PyError.insufficientPlayers)) := by
  constructor
  · intro g now pid p mv c t hphase hget hparse
    unfold process_actions
    rw [if_pos hphase]
    dsimp only
    unfold apply_actions
    dsimp only
    unfold process_single_action
    dsimp only [Option.getD]
    rw [hget, hparse]
  · intro g now h
    unfold start_game
    rw [h]
    simp

/-- Witness for C5: in a started match, a batch carrying the move
string "fly" for registered `p1` raises `ValueError "fly"` and the
state keeps only the refreshed update timestamp; `start` on the fresh
engine fails with the insufficient-participants error. -/
theorem c5_witness :
    (exStarted.state = GameState.playing ∧
     dictGet exStarted.players "p1" = some (freshPlayer "p1" "Alice") ∧
     parseMoveType "fly" = none ∧
     process_actions exStarted 1 [⟨some "p1", some "fly", some 1, some 1⟩] =
       ({exStarted with last_update_time := some 1}, some (PyError.valueError "fly"))) ∧
    (initGame.players = [] ∧
     start_game initGame 5 = (initGame, some PyError.insufficientPlayers)) :=
  ⟨⟨rfl, by decide, by decide,
    c5_failure_behavior.1 exStarted 1 "p1" (freshPlayer "p1" "Alice") "fly" 1 1 rfl
      (by decide) (by decide)⟩,
   ⟨rfl, c5_failure_behavior.2 initGame 5 rfl⟩⟩

/-- Counterexample for C5: the failing `processBatch` call does not
leave the Match unchanged — the state after the raised error differs
from the state before the call (its `lastUpdateTimestamp` moved). -/
theorem c5_counterexample :
    (process_actions exStarted 1 exBadBatch).1 ≠ exStarted ∧
    (process_actions exStarted 1 exBadBatch).2 = some (PyError.valueError "fly") := by
  decide

/-- C6 (amended): the engine accepts a move string exactly when it is
one of the seven lowercase enum values, compared case-sensitively: for
a registered actor, `_process_single_action` succeeds iff the string is
in the table, and an accepted string parses to the unique kind whose
value it equals; any other string (including uppercase variants such as
"JAB") raises the unrecognized-move error. -/
theorem c6_move_string_exact_match
    (g : Game) (pid : String) (p : Player) (s : String) (c t : ℚ)
    (hget : dictGet g.players pid = some p) :
    ((process_single_action g ⟨pid, s, c, t⟩).2 = none ↔
      s ∈ (["jab", "cross", "hook", "uppercut", "block", "dodge", "guard"] : List String)) ∧
    (∀ mt : MoveType, parseMoveType s = some mt → s = mt.value) := by
  constructor
  · unfold process_single_action
    dsimp only
    rw [hget]
    cases hp : parseMoveType s with
    | none =>
      simp [(parseMoveType_eq_none_iff s).mp hp]
    | some mt =>
      have hmem : s ∈ (["jab", "cross", "hook", "uppercut", "block", "dodge", "guard"] :
          List String) := by
        by_contra hcon
        rw [(parseMoveType_eq_none_iff s).mpr hcon] at hp
        cases hp
      simp [hmem]
  · intro mt hp
    unfold parseMoveType at hp
    split_ifs at hp <;> cases hp <;> simp_all [MoveType.value]

/-- Witness for C6: the exact lowercase string "jab" is accepted for
registered `p1`. -/
theorem c6_witness :
    dictGet exStarted.players "p1" = some (freshPlayer "p1" "Alice") ∧
    (((process_single_action exStarted ⟨"p1", "jab", 1, 0⟩).2 = none ↔
      "jab" ∈ (["jab", "cross", "hook", "uppercut", "block", "dodge", "guard"] :
        List String)) ∧
     (∀ mt : MoveType, parseMoveType "jab" = some mt → "jab" = mt.value)) :=
  ⟨by decide,
    c6_move_string_exact_match exStarted "p1" (freshPlayer "p1" "Alice") "jab" 1 0 (by decide)⟩

/-- Counterexample for C6: the uppercase string "JAB" is not accepted
case-insensitively — it raises `ValueError "JAB"` and the action is not
processed, contradicting the claimed case-insensitive comparison. -/
theorem c6_counterexample :
    (process_single_action exStarted ⟨"p1", "JAB", 1, 0⟩).1 = exStarted ∧
    (process_single_action exStarted ⟨"p1", "JAB", 1, 0⟩).2 =
      some (PyError.valueError "JAB") := by
  decide

/-- C7 (amended): on any well-formed state, every operation other than
`start` (an explicit reset) and re-registering an id that is already
present leaves each surviving participant's score no smaller:
processBatch with any event sequence, register of a fresh id,
deregister, pause, resume and finish never decrease an existing
participant's score. -/
theorem c7_score_monotone
    (g : Game) (op : Op) (qid : String) (q q' : Player)
    (hwf : WfPlayers g) (hallowed : OpAllowed g op)
    (hbefore : dictGet g.players qid = some q)
    (hafter : dictGet (runOp g op).players qid = some q') :
    q.score ≤ q'.score := by
  cases op with
  | register pid nm =>
    have h0 : dictGet g.players pid = none := hallowed
    unfold runOp add_player at hafter
    dsimp only at hafter
    have hne : qid ≠ pid := by
      intro hh
      rw [hh, h0] at hbefore
      cases hbefore
    rw [dictGet_dictSet_ne _ _ _ _ hne, hbefore] at hafter
    rw [Option.some.inj hafter]
  | deregister pid =>
    unfold runOp remove_player at hafter
    dsimp only at hafter
    split_ifs at hafter
    · by_cases hqp : qid = pid
      · rw [hqp, dictGet_dictDel_self_nodup _ _ hwf.2] at hafter
        cases hafter
      · rw [dictGet_dictDel_ne _ _ _ hqp, hbefore] at hafter
        rw [Option.some.inj hafter]
    · rw [hbefore] at hafter
      rw [Option.some.inj hafter]
  | start now => exact False.elim hallowed
  | pause =>
    unfold runOp pause_game at hafter
    dsimp only at hafter
    rw [hbefore] at hafter
    rw [Option.some.inj hafter]
  | resume =>
    unfold runOp resume_game at hafter
    split_ifs at hafter <;>
      · dsimp only at hafter
        rw [hbefore] at hafter
        rw [Option.some.inj hafter]
  | finish =>
    unfold runOp end_game at hafter
    dsimp only at hafter
    rw [hbefore] at hafter
    rw [Option.some.inj hafter]
  | processBatch now acts =>
    unfold runOp process_actions at hafter
    split_ifs at hafter with hphase
    · dsimp only at hafter
      have hstep0 : ScoreStep g.players
          ((apply_actions {g with last_update_time := some now} now acts).1).players :=
        scoreStep_apply_actions now acts {g with last_update_time := some now}
      have hwf0 : WfList (({g with last_update_time := some now} : Game).players) := hwf
      cases hps : apply_actions {g with last_update_time := some now} now acts with
      | mk g1 e =>
        rw [hps] at hstep0 hafter
        have hwf1 : WfList g1.players := by
          have hh := wfList_apply_actions now acts {g with last_update_time := some now} hwf0
          rw [hps] at hh
          exact hh
        cases e with
        | none =>
          dsimp only at hafter hstep0
          have htot := scoreStep_trans hstep0 (scoreStep_check_game_conditions g1 now hwf1)
          rcases htot qid q hbefore with ⟨q2, hq2, hle⟩
          rw [hq2] at hafter
          rw [← Option.some.inj hafter]
          exact hle
        | some err =>
          dsimp only at hafter hstep0
          rcases hstep0 qid q hbefore with ⟨q2, hq2, hle⟩
          rw [hq2] at hafter
          rw [← Option.some.inj hafter]
          exact hle
    · rw [hbefore] at hafter
      rw [Option.some.inj hafter]

/-- Witness for C7: pausing a started two-player match keeps `p1`'s
score at 0 ≥ 0. -/
theorem c7_witness :
    WfPlayers exStarted ∧ OpAllowed exStarted Op.pause ∧
    dictGet exStarted.players "p1" = some (freshPlayer "p1" "Alice") ∧
    dictGet (runOp exStarted Op.pause).players "p1" = some (freshPlayer "p1" "Alice") ∧
    (freshPlayer "p1" "Alice").score ≤ (freshPlayer "p1" "Alice").score :=
  ⟨by decide, trivial, by decide, by decide,
    c7_score_monotone exStarted Op.pause "p1" (freshPlayer "p1" "Alice")
      (freshPlayer "p1" "Alice") (by decide) trivial (by decide) (by decide)⟩

/-- Counterexample for C7: from the reachable state holding `p1` at
score 10, `register("p1", ...)` — an operation the claim covers —
drops `p1`'s stored score back to 0. -/
theorem c7_counterexample :
    Option.map Player.score (dictGet (runOps exOpsHit).players "p1") = some 10 ∧
    Option.map Player.score
      (dictGet (runOp (runOps exOpsHit) (.register "p1" "Alice")).players "p1") = some 0 := by
  have h : runOps exOpsHit = exScoredGame := by
    norm_num +decide [exOpsHit, exOpsBase, exJab, exScoredGame, exP2Hit, runOps, runOp, initGame,
      add_player, freshPlayer, dictSet, start_game, resetForStart, process_actions,
      apply_actions, process_single_action, process_known_move, resolve_offense,
      get_opponent, get_opp_list, calculate_damage, apply_damage, move_damage,
      move_effectiveness, pyInt, parseMoveType, dictGet, check_game_conditions,
      handle_knockout, handle_round_end, List.find?]
  rw [h]
  decide

/-- C9: a batch item carrying `move` and `confidence` but no
`player_id` is attributed to the fixed actor id "player1": processing
it is identical to processing the same item with `player_id` set to
"player1"; and when no participant "player1" exists the event is
dropped as an unknown-actor warning (state unchanged, no error), never
rejected as malformed. -/
theorem c9_missing_player_id_defaults
    (g : Game) (now : ℚ) (mv : String) (c : ℚ) (ts : Option ℚ) (t : ℚ) :
    (process_actions g now [⟨none, some mv, some c, ts⟩] =
      process_actions g now [⟨some "player1", some mv, some c, ts⟩]) ∧
    (dictGet g.players "player1" = none →
      process_single_action g ⟨"player1", mv, c, t⟩ = (g, none)) := by
  constructor
  · rfl
  · intro h
    unfold process_single_action
    rw [h]

/-- Witness for C9: on the fresh engine (no "player1" registered), an
id-less jab item is attributed to "player1" and dropped without an
error. -/
theorem c9_witness :
    (process_actions initGame 0 [⟨none, some "jab", some 1, none⟩] =
      process_actions initGame 0 [⟨some "player1", some "jab", some 1, none⟩]) ∧
    dictGet initGame.players "player1" = none ∧
    process_single_action initGame ⟨"player1", "jab", 1, 0⟩ = (initGame, none) :=
  ⟨(c9_missing_player_id_defaults initGame 0 "jab" 1 none 0).1, by decide,
    (c9_missing_player_id_defaults initGame 0 "jab" 1 none 0).2 (by decide)⟩

/-- C10: `register(id, name)` with an already-registered id does not
fail: it stores and returns a fresh participant (health 100, score 0,
neutral posture, no last move), discarding the previous one, while the
phase, the current round and every other participant are unchanged. -/
theorem c10_reregistration_overwrites (g : Game) (pid nm : String) (old : Player)
    (hold : dictGet g.players pid = some old) :
    (add_player g pid nm).2 = freshPlayer pid nm ∧
    dictGet (add_player g pid nm).1.players pid = some (freshPlayer pid nm) ∧
    (add_player g pid nm).1.state = g.state ∧
    (add_player g pid nm).1.current_round = g.current_round ∧
    ∀ q : String, q ≠ pid →
      dictGet (add_player g pid nm).1.players q = dictGet g.players q := by
  refine ⟨rfl, ?_, rfl, rfl, ?_⟩
  · exact dictGet_dictSet_self _ _ _
  · intro q hq
    exact dictGet_dictSet_ne _ _ _ _ hq

/-- Witness for C10: re-registering "p1" as "Carol" in the started
match stores a fresh player under "p1" and leaves "p2" untouched. -/
theorem c10_witness :
    dictGet exStarted.players "p1" = some (freshPlayer "p1" "Alice") ∧
    ((add_player exStarted "p1" "Carol").2 = freshPlayer "p1" "Carol" ∧
     dictGet (add_player exStarted "p1" "Carol").1.players "p1" =
       some (freshPlayer "p1" "Carol") ∧
     (add_player exStarted "p1" "Carol").1.state = exStarted.state ∧
     (add_player exStarted "p1" "Carol").1.current_round = exStarted.current_round ∧
     ∀ q : String, q ≠ "p1" →
       dictGet (add_player exStarted "p1" "Carol").1.players q =
         dictGet exStarted.players q) :=
  ⟨by decide,
    c10_reregistration_overwrites exStarted "p1" "Carol" (freshPlayer "p1" "Alice")
      (by decide)⟩

end BoxingGame

namespace BoxingClassifier

theorem detect_jab_cases (sqrtFn : ℚ → ℚ) (pd : PoseArr) :
    detect_jab sqrtFn pd = 0 ∨ 4/5 < detect_jab sqrtFn pd := by
  unfold detect_jab
  dsimp only
  split_ifs with h
  · exact Or.inr (lt_min h.1 (by norm_num))
  · exact Or.inl rfl

theorem detect_cross_cases (sqrtFn : ℚ → ℚ) (pd : PoseArr) :
    detect_cross sqrtFn pd = 0 ∨ 4/5 < detect_cross sqrtFn pd := by
  unfold detect_cross
  dsimp only
  split_ifs with h
  · exact Or.inr (lt_min h.1 (by norm_num))
  · exact Or.inl rfl

theorem detect_hook_cases (pd : PoseArr) :
    detect_hook pd = 0 ∨ detect_hook pd = 4/5 := by
  unfold detect_hook
  dsimp only
  split_ifs
  · exact Or.inr rfl
  · exact Or.inl rfl

theorem detect_uppercut_cases (pd : PoseArr) :
    detect_uppercut pd = 0 ∨ detect_uppercut pd = 4/5 := by
  unfold detect_uppercut
  dsimp only
  split_ifs
  · exact Or.inr rfl
  · exact Or.inl rfl

theorem keepMove_congr (name : String) (c u1 u2 n1 n2 : ℚ) (h : u1 < c ↔ u2 < c) :
    (keepMove name c u1 n1).map dropTimestamp = (keepMove name c u2 n2).map dropTimestamp := by
  unfold keepMove
  by_cases hc : u1 < c
  · rw [if_pos hc, if_pos (h.mp hc)]
    rfl
  · rw [if_neg hc, if_neg (fun hh => hc (h.mpr hh))]

/-- C8: the two near-duplicate classifier implementations are
equivalent — for every 33-slot pose array (and every evaluator chosen
for the square root inside the Euclidean norm) the backend classifier
with its flat 0.5 threshold and the standalone classifier with its
per-move threshold table produce the same ordered list of
(move, confidence) pairs, ignoring timestamps. -/
theorem c8_classifiers_equivalent (sqrtFn : ℚ → ℚ) (pd : PoseArr) (t1 t2 : ℚ) :
    (backend_process_pose sqrtFn pd t1).map dropTimestamp =
      (standalone_detect_boxing_moves sqrtFn pd t2).map dropTimestamp := by
  have hjab : (1 : ℚ)/2 < detect_jab sqrtFn pd ↔ (7 : ℚ)/10 < detect_jab sqrtFn pd := by
    rcases detect_jab_cases sqrtFn pd with h | h
    · rw [h]
      constructor <;> intro hh <;> norm_num at hh
    · constructor <;> intro _ <;> linarith
  have hcross : (1 : ℚ)/2 < detect_cross sqrtFn pd ↔ (7 : ℚ)/10 < detect_cross sqrtFn pd := by
    rcases detect_cross_cases sqrtFn pd with h | h
    · rw [h]
      constructor <;> intro hh <;> norm_num at hh
    · constructor <;> intro _ <;> linarith
  have hhook : (1 : ℚ)/2 < detect_hook pd ↔ (3 : ℚ)/5 < detect_hook pd := by
    rcases detect_hook_cases pd with h | h <;> rw [h] <;>
      constructor <;> intro hh <;> norm_num at hh ⊢
  have hupper : (1 : ℚ)/2 < detect_uppercut pd ↔ (3 : ℚ)/5 < detect_uppercut pd := by
    rcases detect_uppercut_cases pd with h | h <;> rw [h] <;>
      constructor <;> intro hh <;> norm_num at hh ⊢
  unfold backend_process_pose standalone_detect_boxing_moves
  simp only [List.map_append]
  rw [keepMove_congr "jab" _ _ _ t1 t2 hjab,
    keepMove_congr "cross" _ _ _ t1 t2 hcross,
    keepMove_congr "hook" _ _ _ t1 t2 hhook,
    keepMove_congr "uppercut" _ _ _ t1 t2 hupper,
    keepMove_congr "block" _ _ _ t1 t2 Iff.rfl,
    keepMove_congr "dodge" _ _ _ t1 t2 Iff.rfl,
    keepMove_congr "guard" _ _ _ t1 t2 Iff.rfl]

end BoxingClassifier
